import Mathlib

/-!
Shallow embedding of the snake-game simulation core from `src/main.rs`
(bevy-snake). The embedded parts are the movement function `Direction.mov`,
the per-tick engine system `snake_update`, the input system
`direction_update`, the food-respawn system `on_edible_eaten`, the startup
state, the tick-timer polling system `update`, and the composition of one
simulation tick in the documented frame order
(direction -> engine -> spawner).

Machine-integer conventions: Rust `usize` coordinates are modelled as `Nat`;
the unguarded subtractions `position.x - 1` / `position.y - 1` in
`Direction::mov` are fallible (unsigned underflow is an arithmetic-overflow
fault in Rust), so `Direction.mov` returns `Option Position`, `none` exactly
when the subtraction underflows. Fallible steps propagate through
`snake_update` and the tick composition as `Option`.
-/

/-- Grid cell, `Position { x: usize, y: usize }` from the source.
Coordinates are `Nat` for `usize`. -/
structure Position where
  x : Nat
  y : Nat
deriving DecidableEq, Repr

/-- The four headings, `enum Direction` from the source. -/
inductive Direction where
  | left
  | right
  | up
  | down
deriving DecidableEq, Repr

/-- `Direction::mov` from the source: unit displacement of a cell.
`Left` computes `x - 1` and `Down` computes `y - 1` on `usize` with no
guard; the underflowing case (coordinate `0`) is the arithmetic-overflow
fault of unsigned subtraction, modelled as `none`. The other arms are
total additions. -/
def Direction.mov (d : Direction) (p : Position) : Option Position :=
  match d with
  | .left => if p.x = 0 then none else some ⟨p.x - 1, p.y⟩
  | .right => some ⟨p.x + 1, p.y⟩
  | .up => some ⟨p.x, p.y + 1⟩
  | .down => if p.y = 0 then none else some ⟨p.x, p.y - 1⟩

/-- `struct Snake` from the source: the chain of occupied cells
(`VecDeque<Position>`, head at the front, modelled as a `List` with the
head first), the current heading, and the growth credit `belly`. -/
structure Snake where
  parts : List Position
  direction : Direction
  belly : Nat
deriving DecidableEq, Repr

/-- One active `(Edible, Position)` entity. The bevy entity id that
distinguishes food instances is modelled as a `Nat` identity. -/
structure FoodItem where
  id : Nat
  pos : Position
deriving DecidableEq, Repr

/-- The simulation state touched by the per-tick systems: the snake, the
active food entities in creation order, and the next fresh entity id. -/
structure World where
  snake : Snake
  foods : List FoodItem
  nextId : Nat
deriving DecidableEq, Repr

/-- The food-scan loop inside `snake_update`: iterate the apple query in
creation order; every item whose position equals the head increments
`belly`, is despawned, and sends one `EdibleEaten` event. Returns the
belly after the loop, the surviving food list (despawns applied, order
kept), and the number of `EdibleEaten` events sent. The head compared
against is the freshly pushed new head, which the loop body re-reads
unchanged on every iteration. -/
def foodScan (head : Position) (belly : Nat) : List FoodItem → Nat × List FoodItem × Nat
  | [] => (belly, [], 0)
  | f :: rest =>
    if f.pos = head then
      let r := foodScan head (belly + 1) rest
      (r.1, r.2.1, r.2.2 + 1)
    else
      let r := foodScan head belly rest
      (r.1, f :: r.2.1, r.2.2)

/-- One execution of the `snake_update` body for a single `TickUpdate`
event: compute the new head from the current heading and the front of the
chain (`front().unwrap()` fails on an empty chain, `mov` fails on
underflow), push it to the front, run the food-scan loop, then either
decrement a positive belly or pop the back cell. Returns the updated
snake, the surviving foods, and the `EdibleEaten` event count. -/
def snake_update (snake : Snake) (foods : List FoodItem) :
    Option (Snake × List FoodItem × Nat) :=
  match snake.parts.head? with
  | none => none
  | some front =>
    match snake.direction.mov front with
    | none => none
    | some newPos =>
      let parts1 := newPos :: snake.parts
      let r := foodScan newPos snake.belly foods
      if 0 < r.1 then
        some (⟨parts1, snake.direction, r.1 - 1⟩, r.2.1, r.2.2)
      else
        some (⟨parts1.dropLast, snake.direction, r.1⟩, r.2.1, r.2.2)

/-- `direction_update` from the source: a directional key press
unconditionally overwrites the snake's heading; no press leaves it
unchanged. The per-tick input is the last press before the tick. -/
def direction_update (s : Snake) (input : Option Direction) : Snake :=
  match input with
  | none => s
  | some d => { s with direction := d }

/-- Model of the external `rng.gen_range(lo..hi)` draw: a total function
of an abstract random source value `r`, landing in `[lo, hi)` by reduction
modulo the range width. As `r` ranges uniformly over residues, the result
ranges uniformly over `[lo, hi)`. -/
def genRange (lo hi r : Nat) : Nat := lo + r % (hi - lo)

/-- The random cell drawn by `on_edible_eaten`: `gen_range(0..10)` for
each coordinate, from the two source values `rx`, `ry`. The bounds are
the literals `0..10` in the source; no board-size parameter is read. -/
def respawnPos (rx ry : Nat) : Position := ⟨genRange 0 10 rx, genRange 0 10 ry⟩

/-- `on_edible_eaten` from the source: draw one random cell, then spawn
one fresh `(Edible, Position)` entity per pending `EdibleEaten` event,
all at that same drawn cell. Returns the food list with the spawns
appended and the advanced fresh-id counter. The function reads no board
dimensions; the spawn range is fixed by `respawnPos`. -/
def on_edible_eaten (foods : List FoodItem) (nextId : Nat) (eaten : Nat)
    (rx ry : Nat) : List FoodItem × Nat :=
  let p := respawnPos rx ry
  (foods ++ (List.range eaten).map (fun i => ⟨nextId + i, p⟩), nextId + eaten)

/-- One simulation tick in the documented frame order: the direction
input is applied, `snake_update` runs for the `TickUpdate` event, then
`on_edible_eaten` handles the `EdibleEaten` events. Returns the new world
and the number of food items consumed this tick, or `none` when the
engine step faults. -/
def tickE (w : World) (input : Option Direction) (rx ry : Nat) :
    Option (World × Nat) :=
  let s1 := direction_update w.snake input
  match snake_update s1 w.foods with
  | none => none
  | some (s2, rem, eaten) =>
    let fs := on_edible_eaten rem w.nextId eaten rx ry
    some (⟨s2, fs.1, fs.2⟩, eaten)

/-- A run: fold ticks over a list of per-tick inputs, each input being
the direction pressed before the tick (if any) and the two random source
values consumed by a respawn on that tick. -/
def run (w : World) : List (Option Direction × Nat × Nat) → Option World
  | [] => some w
  | (i, rx, ry) :: rest =>
    match tickE w i rx ry with
    | none => none
    | some (w1, _) => run w1 rest

/-- `startup` from the source, parameterised by the board dimensions: one
snake part at `(width / 2 + 1, height / 2)` heading right with belly 0,
and one apple at `(width / 2 + 2, height / 2 + 1)`. The apple gets the
first food identity. -/
def startup (width height : Nat) : World :=
  { snake := ⟨[⟨width / 2 + 1, height / 2⟩], .right, 0⟩,
    foods := [⟨0, ⟨width / 2 + 2, height / 2 + 1⟩⟩],
    nextId := 1 }

/-- The initial world of `GameState::new`: a 10 by 10 board, so the snake
starts at `(6, 5)` and the apple at `(7, 6)`. -/
def initWorld : World := startup 10 10

/-- A world the program can be in: reached from the startup state by some
finite sequence of ticks. -/
def Reachable (w : World) : Prop := ∃ inputs, run initWorld inputs = some w

/-- The fixed tick period of `GameState::new`, in milliseconds. -/
def tickPeriodMs : Nat := 500

/-- The repeating tick timer: its accumulated elapsed time in
milliseconds. -/
structure TickTimer where
  elapsed : Nat
deriving DecidableEq, Repr

/-- `Timer::tick` for `TimerMode::Repeating` (the bevy timer held in
`GameState`, modelled from its documented semantics): add the frame delta
to the accumulator; if it reaches the period the timer reports finished,
records how many whole periods completed this tick, and wraps the
accumulator modulo the period. Returns the new timer, the `finished`
flag, and the completion count. -/
def timerTick (t : TickTimer) (delta : Nat) : TickTimer × Bool × Nat :=
  let e := t.elapsed + delta
  if tickPeriodMs ≤ e then (⟨e % tickPeriodMs⟩, true, e / tickPeriodMs)
  else (⟨e⟩, false, 0)

/-- The `update` system from the source: tick the timer by the frame
delta and send a single `TickUpdate` event when `finished()` is true.
Returns the new timer state and the number of `TickUpdate` events sent
this frame. -/
def update (t : TickTimer) (delta : Nat) : TickTimer × Nat :=
  let r := timerTick t delta
  (r.1, if r.2.1 then 1 else 0)

/-! ### Basic lemmas about the embedded systems -/

theorem direction_update_parts (s : Snake) (i : Option Direction) :
    (direction_update s i).parts = s.parts := by
  cases i <;> rfl

theorem direction_update_belly (s : Snake) (i : Option Direction) :
    (direction_update s i).belly = s.belly := by
  cases i <;> rfl

theorem foodScan_belly (head : Position) :
    ∀ (fs : List FoodItem) (b : Nat),
      (foodScan head b fs).1 = b + (foodScan head b fs).2.2 := by
  intro fs
  induction fs with
  | nil => intro b; rfl
  | cons f rest ih =>
    intro b
    by_cases hf : f.pos = head
    · simp only [foodScan, if_pos hf]
      rw [ih (b + 1)]
      omega
    · simp only [foodScan, if_neg hf]
      exact ih b

theorem foodScan_count (head : Position) :
    ∀ (fs : List FoodItem) (b : Nat),
      (foodScan head b fs).2.2 = (fs.filter (fun f => f.pos = head)).length := by
  intro fs
  induction fs with
  | nil => intro b; rfl
  | cons f rest ih =>
    intro b
    by_cases hf : f.pos = head
    · simp only [foodScan, if_pos hf, List.filter_cons, hf]
      simp [ih (b + 1)]
    · simp only [foodScan, if_neg hf, List.filter_cons]
      simp [hf, ih b]

theorem foodScan_remaining (head : Position) :
    ∀ (fs : List FoodItem) (b : Nat),
      (foodScan head b fs).2.1 = fs.filter (fun f => ¬(f.pos = head)) := by
  intro fs
  induction fs with
  | nil => intro b; rfl
  | cons f rest ih =>
    intro b
    by_cases hf : f.pos = head
    · simp only [foodScan, if_pos hf, List.filter_cons]
      simp [hf, ih (b + 1)]
    · simp only [foodScan, if_neg hf, List.filter_cons]
      simp [hf, ih b]

theorem foodScan_length (head : Position) :
    ∀ (fs : List FoodItem) (b : Nat),
      (foodScan head b fs).2.1.length + (foodScan head b fs).2.2 = fs.length := by
  intro fs
  induction fs with
  | nil => intro b; rfl
  | cons f rest ih =>
    intro b
    by_cases hf : f.pos = head
    · simp only [foodScan, if_pos hf, List.length_cons]
      have := ih (b + 1)
      omega
    · simp only [foodScan, if_neg hf, List.length_cons]
      have := ih b
      omega

theorem foodScan_remaining_mem (head : Position) {fs : List FoodItem} {b : Nat}
    {g : FoodItem} (hg : g ∈ (foodScan head b fs).2.1) : g ∈ fs := by
  rw [foodScan_remaining] at hg
  exact List.mem_of_mem_filter hg

theorem snake_update_some {s : Snake} {foods : List FoodItem}
    {res : Snake × List FoodItem × Nat} (h : snake_update s foods = some res) :
    ∃ front ps newPos,
      s.parts = front :: ps ∧
      s.direction.mov front = some newPos ∧
      res = (⟨if 0 < s.belly + (foodScan newPos s.belly foods).2.2
                then newPos :: s.parts
                else (newPos :: s.parts).dropLast,
              s.direction,
              if 0 < s.belly + (foodScan newPos s.belly foods).2.2
                then s.belly + (foodScan newPos s.belly foods).2.2 - 1
                else s.belly + (foodScan newPos s.belly foods).2.2⟩,
             (foodScan newPos s.belly foods).2.1,
             (foodScan newPos s.belly foods).2.2) := by
  unfold snake_update at h
  cases hp : s.parts with
  | nil => rw [hp] at h; simp at h
  | cons front ps =>
    rw [hp] at h
    simp only [List.head?] at h
    cases hm : s.direction.mov front with
    | none => rw [hm] at h; simp at h
    | some newPos =>
      rw [hm] at h
      dsimp only at h
      rw [foodScan_belly newPos foods s.belly] at h
      refine ⟨front, ps, newPos, rfl, hm, ?_⟩
      by_cases hb : 0 < s.belly + (foodScan newPos s.belly foods).2.2
      · rw [if_pos hb] at h
        rw [if_pos hb, if_pos hb]
        simp only [Option.some.injEq] at h
        exact h.symm
      · rw [if_neg hb] at h
        rw [if_neg hb, if_neg hb]
        simp only [Option.some.injEq] at h
        exact h.symm

theorem tickE_some {w : World} {i : Option Direction} {rx ry : Nat}
    {w1 : World} {n : Nat} (h : tickE w i rx ry = some (w1, n)) :
    ∃ front ps newPos,
      w.snake.parts = front :: ps ∧
      (direction_update w.snake i).direction.mov front = some newPos ∧
      n = (foodScan newPos w.snake.belly w.foods).2.2 ∧
      w1 = ⟨⟨(if 0 < w.snake.belly + n then newPos :: w.snake.parts
               else (newPos :: w.snake.parts).dropLast),
             (direction_update w.snake i).direction,
             if 0 < w.snake.belly + n then w.snake.belly + n - 1
               else w.snake.belly + n⟩,
            (foodScan newPos w.snake.belly w.foods).2.1 ++
              (List.range n).map (fun k => ⟨w.nextId + k, respawnPos rx ry⟩),
            w.nextId + n⟩ := by
  unfold tickE at h
  dsimp only at h
  cases hsu : snake_update (direction_update w.snake i) w.foods with
  | none => rw [hsu] at h; simp at h
  | some res =>
    obtain ⟨s2, rem, eaten⟩ := res
    rw [hsu] at h
    dsimp only at h
    simp only [on_edible_eaten, Option.some.injEq, Prod.mk.injEq] at h
    obtain ⟨hw1, hn⟩ := h
    obtain ⟨front, ps, newPos, hp, hm, hres⟩ := snake_update_some hsu
    rw [direction_update_parts] at hp
    rw [direction_update_parts, direction_update_belly] at hres
    simp only [Prod.mk.injEq] at hres
    obtain ⟨hs2, hrem, heat⟩ := hres
    subst hn
    subst heat
    subst hrem
    subst hs2
    exact ⟨front, ps, newPos, hp, hm, rfl, hw1.symm⟩

/-- Invariant of every world the single-food program can reach: the chain
is never empty, the growth credit is zero at every tick boundary, exactly
one food item is active, and every active food identity is below the
fresh-id counter. -/
def WInv (w : World) : Prop :=
  w.snake.parts ≠ [] ∧ w.snake.belly = 0 ∧ w.foods.length = 1 ∧
    ∀ f ∈ w.foods, f.id < w.nextId

theorem winv_init : WInv initWorld := by
  refine ⟨?_, rfl, rfl, ?_⟩
  · simp [initWorld, startup]
  · intro f hf
    simp only [initWorld, startup, List.mem_singleton] at hf
    subst hf
    exact Nat.zero_lt_one

theorem winv_tickE {w : World} {i : Option Direction} {rx ry : Nat}
    {w1 : World} {n : Nat} (hw : WInv w) (h : tickE w i rx ry = some (w1, n)) :
    WInv w1 ∧ n ≤ 1 := by
  obtain ⟨hne, hb, hfl, hid⟩ := hw
  obtain ⟨front, ps, newPos, hp, hm, hn, hw1⟩ := tickE_some h
  have hlen := foodScan_length newPos w.foods w.snake.belly
  have hn1 : n ≤ 1 := by omega
  refine ⟨⟨?_, ?_, ?_, ?_⟩, hn1⟩
  · rw [hw1]
    dsimp only
    by_cases hcond : 0 < w.snake.belly + n
    · rw [if_pos hcond]
      exact List.cons_ne_nil _ _
    · rw [if_neg hcond]
      apply List.ne_nil_of_length_pos
      rw [List.length_dropLast, List.length_cons, hp, List.length_cons]
      omega
  · rw [hw1]
    dsimp only
    split <;> omega
  · rw [hw1]
    dsimp only
    rw [List.length_append, List.length_map, List.length_range]
    omega
  · rw [hw1]
    intro f hf
    dsimp only at hf ⊢
    rw [List.mem_append] at hf
    rcases hf with hf | hf
    · have := hid f (foodScan_remaining_mem newPos hf)
      omega
    · rw [List.mem_map] at hf
      obtain ⟨k, hk, hfk⟩ := hf
      rw [List.mem_range] at hk
      rw [← hfk]
      dsimp only
      omega

theorem winv_run :
    ∀ (inputs : List (Option Direction × Nat × Nat)) (w w1 : World),
      WInv w → run w inputs = some w1 → WInv w1 := by
  intro inputs
  induction inputs with
  | nil =>
    intro w w1 hw h
    simp only [run, Option.some.injEq] at h
    rw [← h]
    exact hw
  | cons x rest ih =>
    intro w w1 hw h
    obtain ⟨i, rx, ry⟩ := x
    simp only [run] at h
    cases hte : tickE w i rx ry with
    | none => rw [hte] at h; simp at h
    | some p =>
      obtain ⟨w2, n⟩ := p
      rw [hte] at h
      dsimp only at h
      exact ih w2 w1 (winv_tickE hw hte).1 h

theorem reachable_winv {w : World} (h : Reachable w) : WInv w := by
  obtain ⟨inputs, hr⟩ := h
  exact winv_run inputs initWorld w winv_init hr

/-! ### Concrete runs of the spec scenario -/

/-- The world after the first scenario tick: the snake moved right onto
(7,5); the apple is still at (7,6). -/
def worldTick1 : World := ⟨⟨[⟨7, 5⟩], .right, 0⟩, [⟨0, ⟨7, 6⟩⟩], 1⟩

/-- The world after the consumption tick of the scenario (heading set Up,
random source values 0,0): head (7,6) ate the apple, the chain grew to
two cells, and a fresh apple (identity 1) spawned at (0,0). -/
def worldTick2 : World := ⟨⟨[⟨7, 6⟩, ⟨7, 5⟩], .up, 0⟩, [⟨1, ⟨0, 0⟩⟩], 2⟩

/-- The world one further no-consumption tick after `worldTick2`. -/
def worldTick3 : World := ⟨⟨[⟨7, 7⟩, ⟨7, 6⟩], .up, 0⟩, [⟨1, ⟨0, 0⟩⟩], 2⟩

/-! ### Claim theorems -/

/-- C3 is false as stated at the boundary: applying Left to a cell with
x = 0 does not produce the cell one step to the left; the unsigned
subtraction underflows and no cell at all is produced. -/
theorem heading_apply_left_zero_violation :
    Direction.mov Direction.left ⟨0, 0⟩ = none := rfl

/-- C3 (amended): heading application is a pure function on cells away
from the underflow boundary: Right adds one to x and Up adds one to y on
every cell; Left subtracts one from x whenever x is positive and Down
subtracts one from y whenever y is positive; at x = 0 (Left) or y = 0
(Down) the unsigned subtraction underflows and no cell is produced. -/
theorem heading_apply_spec (x y : Nat) :
    Direction.mov .right ⟨x, y⟩ = some ⟨x + 1, y⟩ ∧
    Direction.mov .up ⟨x, y⟩ = some ⟨x, y + 1⟩ ∧
    (0 < x → Direction.mov .left ⟨x, y⟩ = some ⟨x - 1, y⟩) ∧
    (0 < y → Direction.mov .down ⟨x, y⟩ = some ⟨x, y - 1⟩) ∧
    (x = 0 → Direction.mov .left ⟨x, y⟩ = none) ∧
    (y = 0 → Direction.mov .down ⟨x, y⟩ = none) := by
  refine ⟨rfl, rfl, ?_, ?_, ?_, ?_⟩
  · intro hx
    simp only [Direction.mov]
    rw [if_neg (by omega)]
  · intro hy
    simp only [Direction.mov]
    rw [if_neg (by omega)]
  · intro hx
    simp only [Direction.mov]
    rw [if_pos hx]
  · intro hy
    simp only [Direction.mov]
    rw [if_pos hy]

theorem heading_apply_spec_witness :
    Direction.mov .left ⟨1, 1⟩ = some ⟨0, 1⟩ ∧
    Direction.mov .down ⟨1, 1⟩ = some ⟨1, 0⟩ :=
  ⟨(heading_apply_spec 1 1).2.2.1 (by decide),
   (heading_apply_spec 1 1).2.2.2.1 (by decide)⟩

/-- C8: heading application is unguarded unsigned arithmetic: applying
Left to any cell with x = 0, or Down to any cell with y = 0, underflows
the unsigned coordinate; no bounds check, clamp, or wrap guard produces a
cell on this path. -/
theorem mov_underflow_unguarded (x y : Nat) :
    Direction.mov .left ⟨0, y⟩ = none ∧ Direction.mov .down ⟨x, 0⟩ = none :=
  ⟨rfl, rfl⟩

/-- C9: the heading set by a key press unconditionally overwrites the
current heading, whatever it is, including the exact reversal; in the
scenario (initial heading Right, request Left before any tick) the next
tick succeeds without any fault, moves the head one cell left to (5,5),
and preserves the chain length. -/
theorem setHeading_unconditional :
    (∀ (s : Snake) (d : Direction), (direction_update s (some d)).direction = d) ∧
    tickE initWorld (some .left) 0 0 =
      some (⟨⟨[⟨5, 5⟩], .left, 0⟩, [⟨0, ⟨7, 6⟩⟩], 1⟩, 0) ∧
    (⟨⟨[⟨5, 5⟩], .left, 0⟩, [⟨0, ⟨7, 6⟩⟩], 1⟩ : World).snake.parts.length =
      initWorld.snake.parts.length := by
  refine ⟨fun s d => rfl, by decide, by decide⟩

/-- C10: every reachable world has a non-empty snake chain, so the head
lookup (`front().unwrap()`) at the start of each step is always
defined. -/
theorem chain_nonempty_reachable (w : World) (h : Reachable w) :
    w.snake.parts ≠ [] ∧ w.snake.parts.head?.isSome = true := by
  have hi := reachable_winv h
  refine ⟨hi.1, ?_⟩
  cases hp : w.snake.parts with
  | nil => exact absurd hp hi.1
  | cons a l => rfl

theorem chain_nonempty_reachable_witness :
    initWorld.snake.parts ≠ [] ∧ initWorld.snake.parts.head?.isSome = true :=
  chain_nonempty_reachable initWorld ⟨[], rfl⟩

/-- C2: on every reachable tick that consumes no food, the chain length
after the step equals the chain length before it: the new head is pushed
to the front and the back cell is removed. -/
theorem step_length_no_food (w w1 : World) (i : Option Direction) (rx ry : Nat)
    (hw : Reachable w) (h : tickE w i rx ry = some (w1, 0)) :
    w1.snake.parts.length = w.snake.parts.length ∧
    ∃ newHead, w1.snake.parts = (newHead :: w.snake.parts).dropLast := by
  have hi := reachable_winv hw
  obtain ⟨front, ps, newPos, hp, hm, hn, hw1⟩ := tickE_some h
  have hcond : ¬(0 < w.snake.belly + 0) := by
    rw [hi.2.1]
    omega
  constructor
  · rw [hw1]
    dsimp only
    rw [if_neg hcond, List.length_dropLast, List.length_cons]
    omega
  · refine ⟨newPos, ?_⟩
    rw [hw1]
    dsimp only
    rw [if_neg hcond]

theorem step_length_no_food_witness :
    worldTick1.snake.parts.length = initWorld.snake.parts.length ∧
    ∃ newHead, worldTick1.snake.parts = (newHead :: initWorld.snake.parts).dropLast :=
  step_length_no_food initWorld worldTick1 none 0 0 ⟨[], rfl⟩ (by decide)

/-- C1 is false as stated: in the spec scenario (chain [(6,5)], heading
Right, apple (7,6); tick, set heading Up, tick onto the apple) the
consumption tick itself decrements the credit after incrementing it, so
after that tick growthCredit is 0, not 1, while the chain is
[(7,6),(7,5)] as described. -/
theorem growth_credit_next_tick_violation :
    (run initWorld [(none, 0, 0), (some .up, 0, 0)]).map (fun w => w.snake.belly) =
      some 0 ∧
    ¬((run initWorld [(none, 0, 0), (some .up, 0, 0)]).map (fun w => w.snake.belly) =
      some 1) ∧
    (run initWorld [(none, 0, 0), (some .up, 0, 0)]).map (fun w => w.snake.parts) =
      some [⟨7, 6⟩, ⟨7, 5⟩] := by
  decide

/-- C1 (amended): on a tick that consumes exactly one food item the
growth credit is incremented at consumption and decremented again at the
end of that same tick instead of removing the tail, so the chain grows by
exactly one cell on the consumption tick and the credit is back to 0; the
immediately following no-consumption tick leaves the length unchanged,
netting +1 across the two ticks. In the scenario, after the tick onto
(7,6) the state is growthCredit = 0 and chain = [(7,6),(7,5)]. -/
theorem growth_credit_same_tick (w w1 w2 : World) (i j : Option Direction)
    (rx ry sx sy : Nat) (hb : w.snake.belly = 0)
    (h1 : tickE w i rx ry = some (w1, 1)) (h2 : tickE w1 j sx sy = some (w2, 0)) :
    w1.snake.parts.length = w.snake.parts.length + 1 ∧
    w1.snake.belly = 0 ∧
    w2.snake.parts.length = w1.snake.parts.length ∧
    w2.snake.parts.length = w.snake.parts.length + 1 := by
  obtain ⟨f1, p1, n1, hp1, hm1, hn1, hw1⟩ := tickE_some h1
  have hl1 : w1.snake.parts.length = w.snake.parts.length + 1 := by
    rw [hw1]
    dsimp only
    rw [if_pos (by omega), List.length_cons]
  have hb1 : w1.snake.belly = 0 := by
    rw [hw1]
    dsimp only
    rw [if_pos (by omega), hb]
  obtain ⟨f2, p2, n2, hp2, hm2, hn2, hw2⟩ := tickE_some h2
  have hl2 : w2.snake.parts.length = w1.snake.parts.length := by
    rw [hw2]
    dsimp only
    rw [if_neg (by omega), List.length_dropLast, List.length_cons]
    omega
  exact ⟨hl1, hb1, hl2, by omega⟩

theorem growth_credit_same_tick_witness :
    worldTick2.snake.parts.length = worldTick1.snake.parts.length + 1 ∧
    worldTick2.snake.belly = 0 ∧
    worldTick3.snake.parts.length = worldTick2.snake.parts.length ∧
    worldTick3.snake.parts.length = worldTick1.snake.parts.length + 1 :=
  growth_credit_same_tick worldTick1 worldTick2 worldTick3 (some .up) none 0 0 0 0
    (by decide) (by decide) (by decide)

/-- C4 is false as stated: with two active food items on the new head
cell (7,5), the scan does not stop at the first match: both items are
consumed (two EdibleEaten events) and the belly is incremented twice (net
1 after the tick's own decrement), so "at most one" fails. -/
theorem first_match_only_violation :
    (snake_update ⟨[⟨6, 5⟩], .right, 0⟩ [⟨0, ⟨7, 5⟩⟩, ⟨1, ⟨7, 5⟩⟩]).map
        (fun r => r.2.2) = some 2 ∧
    ¬((snake_update ⟨[⟨6, 5⟩], .right, 0⟩ [⟨0, ⟨7, 5⟩⟩, ⟨1, ⟨7, 5⟩⟩]).map
        (fun r => r.2.2) = some 0 ∨
      (snake_update ⟨[⟨6, 5⟩], .right, 0⟩ [⟨0, ⟨7, 5⟩⟩, ⟨1, ⟨7, 5⟩⟩]).map
        (fun r => r.2.2) = some 1) ∧
    (snake_update ⟨[⟨6, 5⟩], .right, 0⟩ [⟨0, ⟨7, 5⟩⟩, ⟨1, ⟨7, 5⟩⟩]).map
        (fun r => r.1.belly) = some 1 := by
  decide

/-- C4 (amended): during one step the food positions are scanned in
creation order and the scan visits every item: each food whose position
equals the new head is consumed and increments the growth credit by one,
the non-matching items survive in order, and the credit rises by at most
one per step only when at most one active food occupies the new head
cell. -/
theorem food_scan_all_matches (head : Position) (b : Nat) (fs : List FoodItem) :
    (foodScan head b fs).2.2 = (fs.filter (fun f => f.pos = head)).length ∧
    (foodScan head b fs).1 = b + (fs.filter (fun f => f.pos = head)).length ∧
    (foodScan head b fs).2.1 = fs.filter (fun f => ¬(f.pos = head)) ∧
    ((fs.filter (fun f => f.pos = head)).length ≤ 1 →
      (foodScan head b fs).1 ≤ b + 1) := by
  refine ⟨foodScan_count head fs b, ?_, foodScan_remaining head fs b, ?_⟩
  · rw [foodScan_belly head fs b, foodScan_count head fs b]
  · intro hle
    rw [foodScan_belly head fs b, foodScan_count head fs b]
    omega

theorem food_scan_all_matches_witness :
    (foodScan ⟨7, 5⟩ 0 ([⟨0, ⟨7, 5⟩⟩] : List FoodItem)).1 ≤ 0 + 1 :=
  (food_scan_all_matches ⟨7, 5⟩ 0 [⟨0, ⟨7, 5⟩⟩]).2.2.2 (by decide)

/-- C5: every reachable world has exactly one active food item, and a
tick that consumes a food item removes the matched one and adds exactly
one replacement whose identity differs from every identity active before
the tick, so the food count is invariantly 1 across any number of
ticks. -/
theorem food_count_invariant (w w1 : World) (i : Option Direction) (rx ry : Nat)
    (hw : Reachable w) :
    w.foods.length = 1 ∧
    (tickE w i rx ry = some (w1, 1) →
      w1.foods.length = 1 ∧ ∀ g ∈ w1.foods, ∀ f ∈ w.foods, g.id ≠ f.id) := by
  have hi := reachable_winv hw
  refine ⟨hi.2.2.1, fun h => ?_⟩
  refine ⟨(winv_tickE hi h).1.2.2.1, ?_⟩
  intro g hg f hf
  obtain ⟨front, ps, newPos, hp, hm, hn, hw1⟩ := tickE_some h
  have hlen := foodScan_length newPos w.foods w.snake.belly
  have hrem : (foodScan newPos w.snake.belly w.foods).2.1 = [] := by
    apply List.length_eq_zero.mp
    have := hi.2.2.1
    omega
  have hr1 : List.range 1 = [0] := by decide
  rw [hw1] at hg
  dsimp only at hg
  rw [hrem, List.nil_append, hr1, List.map_cons, List.map_nil,
    List.mem_singleton] at hg
  subst hg
  have hfid := hi.2.2.2 f hf
  dsimp only
  omega

theorem food_count_invariant_witness :
    worldTick2.foods.length = 1 ∧
    ¬((⟨1, ⟨0, 0⟩⟩ : FoodItem).id = (⟨0, ⟨7, 6⟩⟩ : FoodItem).id) :=
  ⟨((food_count_invariant worldTick1 worldTick2 (some .up) 0 0
      ⟨[(none, 0, 0)], by decide⟩).2 (by decide)).1,
   ((food_count_invariant worldTick1 worldTick2 (some .up) 0 0
      ⟨[(none, 0, 0)], by decide⟩).2 (by decide)).2 ⟨1, ⟨0, 0⟩⟩ (by decide)
      ⟨0, ⟨7, 6⟩⟩ (by decide)⟩

/-- C6: the replacement food cell is drawn per coordinate from the fixed
range [0,10) (the literals 0..10 in the source, read from no board-size
parameter): the drawn cell always lies in [0,10) x [0,10), the draw is
the identity on source values already in [0,10) per coordinate (so a
uniform source yields a uniform cell and the coordinates are drawn
independently), and consuming one item appends exactly the one fresh item
at the drawn cell. -/
theorem respawn_uniform_range (rx ry tx ty : Nat) (fs : List FoodItem) (nid : Nat) :
    (respawnPos rx ry).x < 10 ∧ (respawnPos rx ry).y < 10 ∧
    (tx < 10 → ty < 10 → respawnPos tx ty = ⟨tx, ty⟩) ∧
    (on_edible_eaten fs nid 1 rx ry).1 = fs ++ [⟨nid, respawnPos rx ry⟩] := by
  refine ⟨?_, ?_, ?_, ?_⟩
  · simp only [respawnPos, genRange]
    omega
  · simp only [respawnPos, genRange]
    omega
  · intro hx hy
    simp only [respawnPos, genRange]
    congr 1 <;> omega
  · have hr1 : List.range 1 = [0] := by decide
    simp [on_edible_eaten, hr1]

theorem respawn_uniform_range_witness :
    respawnPos 3 4 = ⟨3, 4⟩ :=
  (respawn_uniform_range 0 0 3 4 [] 0).2.2.1 (by decide) (by decide)

/-- C7 is false as stated: a poll whose elapsed time spans two full 500ms
periods completes the repeating timer twice, yet the update system checks
only the boolean finished flag and sends exactly one TickUpdate, not two,
so a tick is lost on a long frame. -/
theorem clock_multi_fire_violation :
    (timerTick ⟨0⟩ 1000).2.2 = 2 ∧
    (update ⟨0⟩ 1000).2 = 1 ∧
    ¬((update ⟨0⟩ 1000).2 = 2) := by
  decide

/-- C7 (amended): the tick check fires at most once per poll: it sends
one TickUpdate exactly when the accumulated elapsed time reaches the
fixed 500ms period; on a fire the accumulator wraps modulo the period, so
surplus whole periods spanned by a long frame are dropped rather than
emitted as extra ticks; otherwise the accumulator just grows by the
elapsed amount. -/
theorem clock_single_fire (t : TickTimer) (d : Nat) :
    (update t d).2 ≤ 1 ∧
    ((update t d).2 = 1 ↔ tickPeriodMs ≤ t.elapsed + d) ∧
    (tickPeriodMs ≤ t.elapsed + d →
      (update t d).1.elapsed = (t.elapsed + d) % tickPeriodMs) ∧
    (t.elapsed + d < tickPeriodMs → (update t d).1.elapsed = t.elapsed + d) := by
  refine ⟨?_, ?_, ?_, ?_⟩ <;>
    simp only [update, timerTick] <;>
    by_cases hc : tickPeriodMs ≤ t.elapsed + d <;>
    simp [hc]

theorem clock_single_fire_witness :
    (update ⟨0⟩ 500).1.elapsed = (0 + 500) % tickPeriodMs :=
  (clock_single_fire ⟨0⟩ 500).2.2.1 (by decide)
